import Mathlib

/-!
Verification development for the stock-dashboard script
(src/1209_stock_practice.py).

Modelling conventions, fixed once for the whole file:

* Prices are exact rationals.  The Python code works with binary floats
  coming out of pandas; every claim proved here is either independent of
  rounding error or carries a positivity hypothesis matching the data
  model invariant (DailyBar prices are positive), so that no division by
  zero occurs in the modelled execution.
* A calendar date inside the current year is encoded as the natural
  number 100 * month + day (day < 100), which is order-isomorphic to the
  calendar order inside one year; the month of an encoded date is
  recovered by division by 100.
* An intra-week timestamp (used by the weekly chart) is encoded as
  date * 1440 + minutes-past-midnight, again order-isomorphic.
* `yf.Ticker(sym).history(...)` calls are modelled by oracle functions
  stored in an `Env` structure, one per distinct query window used by
  the source.  A raised exception is modelled by `Except.error`, a
  successful (possibly empty) frame by `Except.ok`.
* `st.warning` / `st.error` calls are modelled by an output list of
  messages; `except Exception: pass` contributes no message.
* A pandas frame of shape dates x securities is modelled as a list of
  rows `(dateKey, cells)` where `cells : List (Option Rat)` has one
  entry per column and `none` models NaN.
-/

/-- One daily bar, as returned by the data source: the columns used by
the script are `Open`, `High`, `Low`, `Close`, `Volume`.  The data model
declares prices positive and volume a non-negative integer. -/
structure Bar where
  Open : ℚ
  High : ℚ
  Low : ℚ
  Close : ℚ
  Volume : ℕ
  deriving DecidableEq, Repr

/-- A per-security history frame: list of (encoded date, bar), ordered by
date ascending with no duplicate dates (RawSeries invariant). -/
abbrev Hist := List (ℕ × Bar)

/-- A resolved ticker, as stored in `valid_tickers`: (code, ticker symbol,
display name). -/
structure ValidTicker where
  code : String
  symbol : String
  name : String
  deriving DecidableEq, Repr

/-- A UI message emitted while processing a batch (`st.warning` /
`st.error`). -/
inductive Msg where
  | warning : String → Msg
  | error : String → Msg
  deriving DecidableEq, Repr

/-- The external-fetch oracles.  Each field models one of the distinct
`yf.Ticker(...).history(...)` query windows appearing in the source plus
the `stock.info.get` lookup; `Except.error e` models a raised
exception with text `e`. -/
structure Env where
  hist5d : String → Except String Hist
  histWeek : String → Except String Hist
  histMonth : String → Except String Hist
  histYear : String → Except String Hist
  histDay : String → ℕ → Except String (List Bar)
  longName : String → Option String

/-- The optional `twstock` module: `none` when the import failed,
otherwise a lookup from code to localized name (`code in twstock.codes`
modelled by the lookup returning `some`). -/
abbrev TwStock := Option (String → Option String)

/-- The static manual translation table `MANUAL_STOCK_NAMES`, embedded
verbatim from the source. -/
def MANUAL_STOCK_NAMES : List (String × String) :=
  [("2330", "台積電"), ("2317", "鴻海"), ("2454", "聯發科"), ("2303", "聯電"),
   ("2308", "台達電"), ("2382", "廣達"), ("2357", "華碩"), ("3231", "緯創"),
   ("3711", "日月光投控"), ("3034", "聯詠"), ("2379", "瑞昱"), ("3008", "大立光"),
   ("6669", "緯穎"), ("2345", "智邦"), ("2412", "中華電"), ("3045", "台灣大"), ("4904", "遠傳"),
   ("2881", "富邦金"), ("2882", "國泰金"), ("2886", "兆豐金"), ("2891", "中信金"),
   ("2884", "玉山金"), ("2892", "第一金"), ("2880", "華南金"), ("2885", "元大金"),
   ("2883", "開發金"), ("2890", "永豐金"), ("2887", "台新金"), ("5880", "合庫金"),
   ("2603", "長榮"), ("2609", "陽明"), ("2615", "萬海"), ("2618", "長榮航"), ("2610", "華航"),
   ("1301", "台塑"), ("1303", "南亞"), ("1326", "台化"), ("1304", "台聚"),
   ("2002", "中鋼"), ("1101", "台泥"), ("1102", "亞泥"), ("1605", "華新"),
   ("0050", "元大台灣50"), ("0056", "元大高股息"), ("00878", "國泰永續高股息"),
   ("00929", "復華台灣科技優息"), ("00940", "元大台灣價值高息"), ("00919", "群益台灣精選高息"),
   ("006208", "富邦台50"), ("00713", "元大台灣高息低波"), ("00939", "統一台灣高息動能")]

/-- The name logic shared verbatim by `get_stock_data` and
`get_history_by_date`:
`name = stock.info.get('longName', code)`; then the manual table
overrides; otherwise, if the `twstock` module is alive and knows the
code, its name is used; otherwise the `longName`-or-code value stands. -/
def resolve_name (tws : TwStock) (longName : Option String) (code : String) : String :=
  let name := match longName with
    | some s => s
    | none => code
  match MANUAL_STOCK_NAMES.lookup code with
  | some n => n
  | none =>
    match tws with
    | some codes =>
      match codes code with
      | some n => n
      | none => name
    | none => name

/-- Python `round(x, 2)`.  (CPython rounds floats half-to-even; the
claims below only evaluate this at values where every rounding
convention agrees, so the Mathlib `round` is used.) -/
def round2 (q : ℚ) : ℚ := ((round (q * 100) : ℤ) : ℚ) / 100

/-- Two-digit zero padding, as produced by `strftime` for `%H` / `%M`. -/
def pad2 (n : ℕ) : String := if n < 10 then ("0" ++ toString n) else toString n

/-- `now.strftime('%H:%M')`. -/
def fmtHM (h m : ℕ) : String := pad2 h ++ ":" ++ pad2 m

/-- Lexicographic code-point comparison of character lists; this is the
order Python uses on `str`. -/
def charListLt : List Char → List Char → Bool
  | [], [] => false
  | [], _ :: _ => true
  | _ :: _, [] => false
  | a :: as, b :: bs => if a < b then true else if b < a then false else charListLt as bs

/-- Python string comparison `a < b` (lexicographic by code point). -/
def strLt (a b : String) : Bool := charListLt a.toList b.toList

/-- The source's session-close test `now.strftime('%H:%M') < '13:30'`,
a lexicographic string comparison (used in `get_yearly_trend` and
`get_history_by_date`). -/
def before_close (h m : ℕ) : Bool := strLt (fmtHM h m) "13:30"

/-- Whitespace for the purpose of Python `str.strip()`. -/
def isSpaceChar (c : Char) : Bool :=
  c = ' ' ∨ c = '\t' ∨ c = '\n' ∨ c = '\r'

/-- Python `code.strip()`: remove leading and trailing whitespace. -/
def pyStrip (s : String) : String :=
  String.mk (((s.toList.dropWhile isSpaceChar).reverse.dropWhile isSpaceChar).reverse)

/-- One row of the main table built by `get_stock_data`; field names
translate the Chinese column labels 代號/名稱/日期/收盤價/漲跌/漲跌幅(%)/成交量. -/
structure StockRow where
  code : String
  name : String
  date : ℕ
  close : ℚ
  change : ℚ
  pctChange : ℚ
  volume : ℕ
  deriving DecidableEq, Repr

/-- Loop body of `get_stock_data` for one entry of `stock_list`:
returns the rows, valid tickers, and messages this entry contributes. -/
def process_code (env : Env) (tws : TwStock) (code0 : String) :
    List StockRow × List ValidTicker × List Msg :=
  let code := pyStrip code0
  if code = "" then ([], [], [])
  else
    let ticker_symbol := code ++ ".TW"
    match env.hist5d ticker_symbol with
    | .error e => ([], [], [.error ("抓取 " ++ code ++ " 錯誤: " ++ e)])
    | .ok hist =>
      match hist.getLast? with
      | none => ([], [], [.warning ("找不到 " ++ code ++ " 的資料。")])
      | some latest =>
        -- prev = hist.iloc[-2] if len(hist) > 1 else latest
        let prev := (hist.dropLast.getLast?).getD latest
        let price := latest.2.Close
        let prev_close := prev.2.Close
        let change := price - prev_close
        let pct_change := change / prev_close * 100
        let name := resolve_name tws (env.longName ticker_symbol) code
        ([{ code := code, name := name, date := latest.1,
            close := round2 price, change := round2 change,
            pctChange := round2 pct_change, volume := latest.2.Volume }],
         [{ code := code, symbol := ticker_symbol, name := name }],
         [])

/-- `get_stock_data`: processes the whole comma-separated list
sequentially, accumulating rows, valid tickers and UI messages. -/
def get_stock_data (env : Env) (tws : TwStock) (stock_list : List String) :
    List StockRow × List ValidTicker × List Msg :=
  (stock_list.flatMap (fun c => (process_code env tws c).1),
   stock_list.flatMap (fun c => (process_code env tws c).2.1),
   stock_list.flatMap (fun c => (process_code env tws c).2.2))

/-! ## Outer-union merge of per-security series

`DataFrame.join(..., how='outer')` iterated over unique-keyed series,
followed by `sort_index()` (and likewise `pd.DataFrame(dict_of_series)`
in the yearly path), produces the table over the sorted union of the
timestamps whose cell for column `s` at key `k` is `s`'s value at `k`
when present and NaN otherwise.  It is embedded directly in that
normal form. -/

/-- A per-security value series keyed by encoded timestamp. -/
abbrev Series := List (ℕ × ℚ)

/-- A merged frame: rows (timestamp key, one optional cell per column). -/
abbrev Table := List (ℕ × List (Option ℚ))

/-- The timestamps of a series. -/
def colKeys (s : Series) : List ℕ := s.map Prod.fst

/-- Cell of series `s` at key `k`: the value when `k` is in the index,
NaN (`none`) otherwise. -/
def lookupCell (s : Series) (k : ℕ) : Option ℚ :=
  (s.find? (fun p => p.1 == k)).map (·.2)

/-- Sorted union of all timestamps. -/
def unionKeys (cols : List Series) : List ℕ :=
  ((cols.flatMap colKeys).dedup).insertionSort (· ≤ ·)

/-- The outer-joined frame of a list of columns. -/
def outerJoinAll (cols : List Series) : Table :=
  (unionKeys cols).map (fun k => (k, cols.map (fun s => lookupCell s k)))

/-! ## get_weekly_trend -/

/-- Point synthesis of `get_weekly_trend`: each daily bar `(d, b)` yields
the 09:00 point at the open price and the 13:30 point at the close
price (timestamps encoded as date * 1440 + minutes). -/
def weekly_points (hist : Hist) : Series :=
  hist.flatMap (fun db =>
    [(db.1 * 1440 + 540, db.2.Open), (db.1 * 1440 + 810, db.2.Close)])

/-- `start_price = stock_df['Price'].iloc[0]`;
`CumReturn = (Price - start_price) / start_price * 100` over all points
(the caller guarantees the list is non-empty). -/
def cumReturn (pts : Series) : Series :=
  match pts with
  | [] => []
  | (_, sp) :: _ => pts.map (fun tp => (tp.1, (tp.2 - sp) / sp * 100))

/-- Loop body of `get_weekly_trend` for one ticker: `none` when the
fetch raised (`except Exception: pass`) or the frame is empty, otherwise
the labelled cumulative-return series. -/
def weekly_series (env : Env) (tk : ValidTicker) : Option (String × Series) :=
  match env.histWeek tk.symbol with
  | .error _ => none
  | .ok hist =>
    if hist.isEmpty then none
    else some (tk.code ++ " " ++ tk.name, cumReturn (weekly_points hist))

/-- Messages emitted by one iteration of the weekly loop: the exception
handler body is `pass`, so nothing is ever reported. -/
def weekly_msgs (env : Env) (tk : ValidTicker) : List Msg :=
  match env.histWeek tk.symbol with
  | .error _ => []
  | .ok _ => []

/-- The surviving labelled columns, in ticker order. -/
def weekly_cols (env : Env) (tks : List ValidTicker) : List (String × Series) :=
  tks.filterMap (weekly_series env)

/-- `get_weekly_trend`: column labels, the outer-joined and
index-sorted table, and the (always empty) list of UI messages. -/
def get_weekly_trend (env : Env) (tks : List ValidTicker) :
    List String × Table × List Msg :=
  let cols := weekly_cols env tks
  (cols.map (·.1), outerJoinAll (cols.map (·.2)), tks.flatMap (weekly_msgs env))

/-! ## get_monthly_trend -/

/-- Loop body of `get_monthly_trend` for one ticker: daily closes from
the first of the month; skipped on exception, on an empty frame, and —
unlike the weekly path — when the baseline close is not positive
(`if start_price > 0:`). -/
def monthly_series (env : Env) (tk : ValidTicker) : Option (String × Series) :=
  match env.histMonth tk.symbol with
  | .error _ => none
  | .ok hist =>
    match hist with
    | [] => none
    | first :: _ =>
      let start_price := first.2.Close
      if 0 < start_price then
        some (tk.code ++ " " ++ tk.name,
              hist.map (fun db => (db.1, (db.2.Close - start_price) / start_price * 100)))
      else none

/-- The surviving monthly columns, in ticker order. -/
def monthly_cols (env : Env) (tks : List ValidTicker) : List (String × Series) :=
  tks.filterMap (monthly_series env)

/-- `get_monthly_trend`: column labels and the merged table. -/
def get_monthly_trend (env : Env) (tks : List ValidTicker) :
    List String × Table :=
  let cols := monthly_cols env tks
  (cols.map (·.1), outerJoinAll (cols.map (·.2)))

/-! ## get_yearly_trend -/

/-- The calendar month of an encoded date (dates are 100 * month + day). -/
def dateMonth (d : ℕ) : ℕ := d / 100

/-- Stage 1 of `get_yearly_trend` for one ticker: fetch, drop zero-volume
bars, and drop the last bar when it is today's not-yet-closed session.
When the volume filter empties the frame, `df.index[-1]` raises and the
`except` clause skips the ticker. -/
def yearly_series (env : Env) (nowDate nowH nowM : ℕ) (tk : ValidTicker) :
    Option (String × Series) :=
  match env.histYear tk.symbol with
  | .error _ => none
  | .ok hist =>
    if hist.isEmpty then none
    else
      let df := hist.filter (fun db => decide (0 < db.2.Volume))
      match df.getLast? with
      | none => none
      | some lastBar =>
        let df := if lastBar.1 == nowDate && before_close nowH nowM then df.dropLast else df
        if df.isEmpty then none
        else some (tk.code ++ " " ++ tk.name, df.map (fun db => (db.1, db.2.Close)))

/-- `all_series`: the surviving labelled close series, in ticker order. -/
def yearly_all_series (env : Env) (nowDate nowH nowM : ℕ) (tks : List ValidTicker) :
    List (String × Series) :=
  tks.filterMap (yearly_series env nowDate nowH nowM)

/-- Stage 2: `combined_df = pd.DataFrame(all_series).sort_index()`. -/
def yearly_combined (env : Env) (nowDate nowH nowM : ℕ) (tks : List ValidTicker) : Table :=
  outerJoinAll ((yearly_all_series env nowDate nowH nowM tks).map (·.2))

/-- The cell update of a forward-fill step: an observed value stands,
a NaN inherits the carried previous value. -/
def ffillCell (last c : Option ℚ) : Option ℚ :=
  match c with
  | some v => some v
  | none => last

/-- Forward-fill one row of cells against the carried per-column
previous values. -/
def ffillRow : List (Option ℚ) → List (Option ℚ) → List (Option ℚ)
  | _, [] => []
  | lasts, c :: cs => ffillCell (lasts.headD none) c :: ffillRow lasts.tail cs

/-- `combined_df.ffill()`: walk the rows in index order carrying, per
column, the last value seen. -/
def ffillGo : List (Option ℚ) → Table → Table
  | _, [] => []
  | lasts, (k, cells) :: rest =>
    (k, ffillRow lasts cells) :: ffillGo (ffillRow lasts cells) rest

/-- Stage 3: the forward-filled combined table (the first row has no
prior values, hence the empty initial carry). -/
def yearly_filled (env : Env) (nowDate nowH nowM : ℕ) (tks : List ValidTicker) : Table :=
  ffillGo [] (yearly_combined env nowDate nowH nowM tks)

/-- `combined_df.notna().sum(axis=1)` for one row. -/
def nonNullCount (cells : List (Option ℚ)) : ℕ :=
  (cells.filter Option.isSome).length

/-- `threshold = len(valid_tickers) * 0.3`.  (The double product
`n * 0.3` rounds to exactly 3n/10 whenever 3n/10 is an integer and to a
value strictly between the neighbouring integers otherwise, so the
float threshold compares against integer counts exactly like the
rational 3n/10 does; it is therefore embedded as that rational.) -/
def coverage_threshold (n : ℕ) : ℚ := (n : ℚ) * (3 / 10)

/-- Stage 4: `combined_df[valid_counts >= threshold]`. -/
def coverage_filter (n : ℕ) (t : Table) : Table :=
  t.filter (fun r => decide (coverage_threshold n ≤ (nonNullCount r.2 : ℚ)))

/-- Stage 4 applied to the pipeline. -/
def yearly_kept (env : Env) (nowDate nowH nowM : ℕ) (tks : List ValidTicker) : Table :=
  coverage_filter tks.length (yearly_filled env nowDate nowH nowM tks)

/-- The distinct months present, ascending (`groupby('Month')` iterates
its keys in sorted order). -/
def monthsIn (t : Table) : List ℕ :=
  ((t.map (fun r => dateMonth r.1)).dedup).insertionSort (· ≤ ·)

/-- The rows of one month group, in row order. -/
def monthGroup (t : Table) (m : ℕ) : Table :=
  t.filter (fun r => dateMonth r.1 == m)

/-- `target_dates` contribution of one group: the first row, plus the
last row when its date differs from the first's. -/
def endpointsOfGroup (g : Table) : Table :=
  match g.head?, g.getLast? with
  | some r, some l => if l.1 ≠ r.1 then [r, l] else [r]
  | _, _ => []

/-- Stage 5: `final_df = combined_df.loc[target_dates]`. -/
def monthEndpoints (t : Table) : Table :=
  (monthsIn t).flatMap (fun m => endpointsOfGroup (monthGroup t m))

/-- Stage 5 applied to the pipeline. -/
def yearly_final (env : Env) (nowDate nowH nowM : ℕ) (tks : List ValidTicker) : Table :=
  monthEndpoints (yearly_kept env nowDate nowH nowM tks)

/-- `final_df[col].first_valid_index()` followed by `.loc[...]`: the
first non-NaN value of a column, `none` when the column is all NaN. -/
def firstSome : List (Option ℚ) → Option ℚ
  | [] => none
  | c :: cs =>
    match c with
    | some v => some v
    | none => firstSome cs

/-- Column `j` of a table as a list of optional cells. -/
def tableCol (t : Table) (j : ℕ) : List (Option ℚ) :=
  t.map (fun r => r.2.getD j none)

/-- Stage 6 for one column: keep it only when its baseline (first valid
close among the kept rows) exists and is positive, and rebase to
percentage returns; NaN cells stay NaN. -/
def yearly_trend_col (labels : List String) (final : Table) (j : ℕ) :
    Option (String × List (Option ℚ)) :=
  let col := tableCol final j
  match firstSome col with
  | none => none
  | some sp =>
    if 0 < sp then
      some (labels.getD j default, col.map (Option.map (fun v => (v - sp) / sp * 100)))
    else none

/-- `get_yearly_trend`: the kept date index and the surviving rebased
columns. -/
def get_yearly_trend (env : Env) (nowDate nowH nowM : ℕ) (tks : List ValidTicker) :
    List ℕ × List (String × List (Option ℚ)) :=
  let all_series := yearly_all_series env nowDate nowH nowM tks
  if all_series.isEmpty then ([], [])
  else
    let final := yearly_final env nowDate nowH nowM tks
    (final.map (·.1),
     (List.range all_series.length).filterMap
       (yearly_trend_col (all_series.map (·.1)) final))

/-! ## get_history_by_date -/

/-- One row of the single-date lookup table; fields translate the
columns 代號/名稱/日期/開盤/最高/最低/收盤價 (13:30)/成交量. -/
structure HistRow where
  code : String
  name : String
  date : ℕ
  Open : ℚ
  High : ℚ
  Low : ℚ
  Close : ℚ
  volume : ℕ
  deriving DecidableEq, Repr

/-- "Now" in the exchange timezone (`datetime.now(pytz.timezone('Asia/Taipei'))`):
its calendar date (encoded) and its time of day. -/
structure NowTW where
  date : ℕ
  hour : ℕ
  minute : ℕ

/-- Loop body of `get_history_by_date` for one code: the one-day fetch
(end-exclusive range of exactly one day), silently skipped on exception
or when no bar exists for the date. -/
def history_row (env : Env) (tws : TwStock) (target : ℕ) (code0 : String) : List HistRow :=
  let code := pyStrip code0
  if code = "" then []
  else
    let ticker_symbol := code ++ ".TW"
    match env.histDay ticker_symbol target with
    | .error _ => []
    | .ok hist =>
      match hist.head? with
      | none => []
      | some row =>
        let name := resolve_name tws (env.longName ticker_symbol) code
        [{ code := code, name := name, date := target,
           Open := round2 row.Open, High := round2 row.High, Low := round2 row.Low,
           Close := round2 row.Close, volume := row.Volume }]

/-- The fetch loop of `get_history_by_date` over the whole code list. -/
def history_rows (env : Env) (tws : TwStock) (stock_list : List String) (target : ℕ) :
    List HistRow :=
  stock_list.flatMap (history_row env tws target)

/-- `get_history_by_date`: the session gate (same-day-before-close, then
future date) followed by the fetch loop. -/
def get_history_by_date (env : Env) (tws : TwStock) (now : NowTW)
    (stock_list : List String) (target : ℕ) : List HistRow :=
  if target == now.date && before_close now.hour now.minute then []
  else if now.date < target then []
  else history_rows env tws stock_list target

/-! ## Concrete fixtures

Small concrete environments used to instantiate the theorems below on
explicit inputs. -/

-- The Batteries library seals rational arithmetic against unfolding;
-- re-opening it lets concrete evaluations go through `decide`.
attribute [local semireducible] Rat.mul Rat.add Rat.sub Rat.inv Rat.ofScientific

/-- An environment in which every fetch succeeds with an empty frame. -/
def baseEnv : Env :=
  { hist5d := fun _ => .ok [], histWeek := fun _ => .ok [],
    histMonth := fun _ => .ok [], histYear := fun _ => .ok [],
    histDay := fun _ _ => .ok [], longName := fun _ => none }

/-- A bar with the given open, close and volume. -/
def mkBar (o c : ℚ) (v : ℕ) : Bar :=
  { Open := o, High := c, Low := o, Close := c, Volume := v }

def tkA : ValidTicker := { code := "1111", symbol := "1111.TW", name := "A" }

def tkB : ValidTicker := { code := "2222", symbol := "2222.TW", name := "B" }

/-- Weekly fixture: two tickers, overlapping but unequal trading days. -/
def fetchWeekTest (s : String) : Except String Hist :=
  if s = "1111.TW" then .ok [(101, mkBar 10 11 100), (103, mkBar 11 12 100)]
  else if s = "2222.TW" then .ok [(101, mkBar 20 22 100), (102, mkBar 22 21 100)]
  else .ok []

def envWeekTest : Env := { baseEnv with histWeek := fetchWeekTest }

/-- Fixture for the single-bar scenario of `get_stock_data`. -/
def fetch5dSingle (s : String) : Except String Hist :=
  if s = "2330.TW" then .ok [(1209, mkBar 100 105 5000)] else .ok []

def envSingleBar : Env := { baseEnv with hist5d := fetch5dSingle }

/-- Fixture for the failure-isolation scenario: the middle code raises. -/
def fetch5dMixed (s : String) : Except String Hist :=
  if s = "9998.TW" then .error "boom"
  else if s = "2330.TW" then .ok [(1209, mkBar 100 105 5000)]
  else .ok [(1209, mkBar 50 51 700), (1210, mkBar 51 52 800)]

def fetchWeekMixed (s : String) : Except String Hist :=
  if s = "1111.TW" then .error "down"
  else .ok [(101, mkBar 10 11 100)]

def envMixed : Env := { baseEnv with hist5d := fetch5dMixed, histWeek := fetchWeekMixed }

/-- Fixture for the weekly zero-baseline scenario: one bar whose open
price is zero. -/
def fetchWeekZero (s : String) : Except String Hist :=
  if s = "7777.TW" then .ok [(101, mkBar 0 5 100)] else .ok []

def envWeekZero : Env := { baseEnv with histWeek := fetchWeekZero }

def tkZ : ValidTicker := { code := "7777", symbol := "7777.TW", name := "X" }

/-- Yearly fixture: ten tickers, three with a bar only on date 102
(January 2nd), seven with a bar only on date 105 (January 5th). -/
def tkN (i : ℕ) : ValidTicker :=
  { code := toString i, symbol := toString i ++ ".TW", name := "S" ++ toString i }

def tks10 : List ValidTicker := (List.range 10).map tkN

def fetchYearTen (s : String) : Except String Hist :=
  if s = "0.TW" ∨ s = "1.TW" ∨ s = "2.TW" then .ok [(102, mkBar 10 10 100)]
  else .ok [(105, mkBar 20 20 100)]

def envYearTen : Env := { baseEnv with histYear := fetchYearTen }

/-- Yearly fixture with two calendar months, the second month holding a
single row. -/
def fetchYearTwoMonths (_ : String) : Except String Hist :=
  .ok [(102, mkBar 10 10 100), (105, mkBar 12 12 100), (203, mkBar 15 15 100)]

def envTwoMonths : Env := { baseEnv with histYear := fetchYearTwoMonths }

def tksAB : List ValidTicker := [tkA, tkB]

/-- Single-date-lookup fixture: one bar available on date 100. -/
def fetchDayTest (s : String) (d : ℕ) : Except String (List Bar) :=
  if s = "2330.TW" ∧ d = 100 then .ok [mkBar 50 55 999] else .ok []

def envDayTest : Env := { baseEnv with histDay := fetchDayTest }

/-! ## Helper lemmas -/

set_option maxRecDepth 10000 in
/-- The lexicographic `'%H:%M' < '13:30'` test agrees with the numeric
minutes-of-day comparison on every valid time of day. -/
theorem before_close_iff :
    ∀ h < 24, ∀ m < 60, (before_close h m = true ↔ 60 * h + m < 810) := by decide

theorem colKeys_def (s : Series) : colKeys s = s.map Prod.fst := rfl

/-- `find?` by key returns exactly the stored entry when the keys are
duplicate-free. -/
theorem find?_key_eq_some {α : Type _} {s : List (ℕ × α)} {k : ℕ} {v : α}
    (hnd : (s.map Prod.fst).Nodup) (hmem : (k, v) ∈ s) :
    s.find? (fun p => p.1 == k) = some (k, v) := by
  induction s with
  | nil => cases hmem
  | cons a t ih =>
    rw [List.map_cons, List.nodup_cons] at hnd
    rcases List.mem_cons.mp hmem with h | h
    · subst h
      rw [List.find?_cons, show ((k, v).1 == k) = true by simp]
    · have hne : (a.1 == k) = false := by
        refine beq_eq_false_iff_ne.mpr ?_
        intro he
        exact hnd.1 (he.symm ▸ List.mem_map_of_mem Prod.fst h)
      rw [List.find?_cons, hne]
      exact ih hnd.2 h

theorem lookupCell_eq_some {s : Series} {k : ℕ} {v : ℚ}
    (hnd : (colKeys s).Nodup) (hmem : (k, v) ∈ s) : lookupCell s k = some v := by
  unfold lookupCell
  rw [find?_key_eq_some hnd hmem]
  rfl

theorem lookupCell_eq_none {s : Series} {k : ℕ} (h : k ∉ colKeys s) :
    lookupCell s k = none := by
  unfold lookupCell
  rw [List.find?_eq_none.mpr]
  · rfl
  · intro p hp hbeq
    apply h
    have hpk : p.1 = k := eq_of_beq hbeq
    rw [colKeys_def, ← hpk]
    exact List.mem_map_of_mem Prod.fst hp

theorem mem_unionKeys {cols : List Series} {k : ℕ} :
    k ∈ unionKeys cols ↔ ∃ s ∈ cols, k ∈ colKeys s := by
  unfold unionKeys
  rw [(List.perm_insertionSort _ _).mem_iff, List.mem_dedup, List.mem_flatMap]

theorem unionKeys_nodup (cols : List Series) : (unionKeys cols).Nodup := by
  unfold unionKeys
  exact (List.perm_insertionSort _ _).nodup_iff.mpr (List.nodup_dedup _)

theorem unionKeys_sorted (cols : List Series) :
    List.Sorted (· ≤ ·) (unionKeys cols) := List.sorted_insertionSort _ _

theorem outerJoinAll_keys (cols : List Series) :
    (outerJoinAll cols).map Prod.fst = unionKeys cols := by
  unfold outerJoinAll
  rw [List.map_map]
  rw [show (Prod.fst ∘ fun k => (k, cols.map (fun s => lookupCell s k))) = id from rfl]
  exact List.map_id _

theorem outerJoinAll_row {cols : List Series} {k : ℕ} (h : k ∈ unionKeys cols) :
    (k, cols.map (fun s => lookupCell s k)) ∈ outerJoinAll cols :=
  List.mem_map_of_mem _ h

theorem mem_outerJoinAll {cols : List Series} {r : ℕ × List (Option ℚ)}
    (h : r ∈ outerJoinAll cols) :
    r.1 ∈ unionKeys cols ∧ r = (r.1, cols.map (fun s => lookupCell s r.1)) := by
  unfold outerJoinAll at h
  rcases List.mem_map.mp h with ⟨k, hk, he⟩
  cases he
  exact ⟨hk, rfl⟩

theorem getD_mem_of_lt {α : Type _} (l : List α) (j : ℕ) (d : α) (hj : j < l.length) :
    l.getD j d ∈ l := by
  rw [List.getD_eq_getElem?_getD, List.getElem?_eq_getElem hj]
  exact List.getElem_mem hj

theorem getD_map_lookupCell (cols : List Series) (k : ℕ) {j : ℕ} (hj : j < cols.length) :
    (cols.map (fun s => lookupCell s k)).getD j none = lookupCell (cols.getD j []) k := by
  rw [List.getD_eq_getElem?_getD, List.getD_eq_getElem?_getD, List.getElem?_map,
    List.getElem?_eq_getElem hj]
  rfl

theorem outerJoinAll_cell_some {cols : List Series} {j k : ℕ} {v : ℚ}
    (hj : j < cols.length) (hnd : (colKeys (cols.getD j [])).Nodup)
    (hmem : (k, v) ∈ cols.getD j []) :
    ∃ cells, (k, cells) ∈ outerJoinAll cols ∧ cells.getD j none = some v := by
  have hkmem : k ∈ unionKeys cols := by
    rw [mem_unionKeys]
    exact ⟨cols.getD j [], getD_mem_of_lt cols j [] hj,
      List.mem_map_of_mem Prod.fst hmem⟩
  refine ⟨cols.map (fun s => lookupCell s k), outerJoinAll_row hkmem, ?_⟩
  rw [getD_map_lookupCell cols k hj, lookupCell_eq_some hnd hmem]

theorem outerJoinAll_cell_none {cols : List Series} {j k : ℕ}
    (hj : j < cols.length) (hk : k ∈ unionKeys cols)
    (hnot : k ∉ colKeys (cols.getD j [])) :
    ∃ cells, (k, cells) ∈ outerJoinAll cols ∧ cells.getD j none = none := by
  refine ⟨cols.map (fun s => lookupCell s k), outerJoinAll_row hk, ?_⟩
  rw [getD_map_lookupCell cols k hj, lookupCell_eq_none hnot]

theorem eq_of_mem_keyed_nodup {α : Type _} {l : List (ℕ × α)} {r r' : ℕ × α}
    (hnd : (l.map Prod.fst).Nodup) (h : r ∈ l) (h' : r' ∈ l) (hk : r.1 = r'.1) :
    r = r' := by
  induction l with
  | nil => cases h
  | cons a t ih =>
    rw [List.map_cons, List.nodup_cons] at hnd
    rcases List.mem_cons.mp h with h1 | h1 <;> rcases List.mem_cons.mp h' with h2 | h2
    · rw [h1, h2]
    · exfalso
      apply hnd.1
      rw [h1] at hk
      rw [hk]
      exact List.mem_map_of_mem Prod.fst h2
    · exfalso
      apply hnd.1
      rw [h2] at hk
      rw [← hk]
      exact List.mem_map_of_mem Prod.fst h1
    · exact ih hnd.2 h1 h2

/-- The last non-NaN value of a list of cells, scanning from the left
(`none` when every cell is NaN). -/
def lastSome : List (Option ℚ) → Option ℚ
  | [] => none
  | c :: cs =>
    match lastSome cs with
    | some v => some v
    | none => c

/-- The cell of a table in row `i`, column `j`. -/
def cellAt (t : Table) (i j : ℕ) : Option ℚ := (t.getD i (0, [])).2.getD j none

theorem lastSome_cons (c : Option ℚ) (l : List (Option ℚ)) :
    lastSome (c :: l) = match lastSome l with | some v => some v | none => c := rfl

theorem tableCol_cons (r : ℕ × List (Option ℚ)) (t : Table) (j : ℕ) :
    tableCol (r :: t) j = r.2.getD j none :: tableCol t j := rfl

theorem cellAt_cons_zero (k : ℕ) (cells : List (Option ℚ)) (rest : Table) (j : ℕ) :
    cellAt ((k, cells) :: rest) 0 j = cells.getD j none := rfl

theorem cellAt_cons_succ (r : ℕ × List (Option ℚ)) (rest : Table) (i j : ℕ) :
    cellAt (r :: rest) (i + 1) j = cellAt rest i j := rfl

theorem ffillGo_cons (carry : List (Option ℚ)) (k : ℕ) (cells : List (Option ℚ)) (rest : Table) :
    ffillGo carry ((k, cells) :: rest)
      = (k, ffillRow carry cells) :: ffillGo (ffillRow carry cells) rest := rfl

theorem getD_zero_headD (l : List (Option ℚ)) : l.getD 0 none = l.headD none := by
  cases l <;> rfl

theorem tail_getD (l : List (Option ℚ)) (j : ℕ) :
    l.tail.getD j none = l.getD (j + 1) none := by
  cases l <;> rfl

theorem ffillRow_length (lasts cells : List (Option ℚ)) :
    (ffillRow lasts cells).length = cells.length := by
  induction cells generalizing lasts with
  | nil => rfl
  | cons c cs ih => simp [ffillRow, ih]

theorem ffillRow_getD (lasts cells : List (Option ℚ)) (j : ℕ) (hj : j < cells.length) :
    (ffillRow lasts cells).getD j none
      = ffillCell (lasts.getD j none) (cells.getD j none) := by
  induction cells generalizing lasts j with
  | nil => simp at hj
  | cons c cs ih =>
    cases j with
    | zero =>
      show (ffillCell (lasts.headD none) c :: ffillRow lasts.tail cs).getD 0 none = _
      rw [List.getD_cons_zero, List.getD_cons_zero, getD_zero_headD]
    | succ j =>
      have hj' : j < cs.length := Nat.lt_of_succ_lt_succ hj
      show (ffillCell (lasts.headD none) c :: ffillRow lasts.tail cs).getD (j + 1) none = _
      rw [List.getD_cons_succ, List.getD_cons_succ, ih lasts.tail j hj', tail_getD]

theorem ffillGo_length (carry : List (Option ℚ)) (t : Table) :
    (ffillGo carry t).length = t.length := by
  induction t generalizing carry with
  | nil => rfl
  | cons r rest ih =>
    cases r with
    | mk k cells => rw [ffillGo_cons, List.length_cons, List.length_cons, ih]

theorem ffillGo_keys (carry : List (Option ℚ)) (t : Table) :
    (ffillGo carry t).map Prod.fst = t.map Prod.fst := by
  induction t generalizing carry with
  | nil => rfl
  | cons r rest ih =>
    cases r with
    | mk k cells => rw [ffillGo_cons, List.map_cons, List.map_cons, ih]

/-- The forward-fill recurrence, cell by cell: an observed value stands;
a NaN cell receives the last value observed in the rows above it, or the
initial carry when the whole column above is NaN. -/
theorem ffillGo_cellAt (t : Table) (w : ℕ) (hw : ∀ r ∈ t, r.2.length = w)
    (i j : ℕ) (hi : i < t.length) (hj : j < w) (carry : List (Option ℚ)) :
    cellAt (ffillGo carry t) i j
      = match cellAt t i j with
        | some v => some v
        | none =>
          match lastSome (tableCol (t.take i) j) with
          | some v => some v
          | none => carry.getD j none := by
  induction t generalizing carry i with
  | nil => simp at hi
  | cons r rest ih =>
    cases r with
    | mk k cells =>
    have hcw : cells.length = w := hw (k, cells) (List.mem_cons_self _ _)
    cases i with
    | zero =>
      rw [ffillGo_cons, cellAt_cons_zero, cellAt_cons_zero,
        ffillRow_getD carry cells j (by rw [hcw]; exact hj)]
      cases hc : cells.getD j none with
      | some v => rfl
      | none => rfl
    | succ i =>
      have hi' : i < rest.length := Nat.lt_of_succ_lt_succ hi
      rw [ffillGo_cons, cellAt_cons_succ, cellAt_cons_succ,
        ih (fun r hr => hw r (List.mem_cons_of_mem _ hr)) i hi' (ffillRow carry cells),
        ffillRow_getD carry cells j (by rw [hcw]; exact hj)]
      show _ = match cellAt rest i j with
        | some v => some v
        | none =>
          match lastSome (cells.getD j none :: tableCol (rest.take i) j) with
          | some v => some v
          | none => carry.getD j none
      cases hc : cellAt rest i j with
      | some v => rfl
      | none =>
        rw [lastSome_cons]
        cases hls : lastSome (tableCol (rest.take i) j) with
        | some v => rfl
        | none =>
          cases hcell : cells.getD j none with
          | some v => rfl
          | none => rfl

theorem mem_monthsIn {t : Table} {m : ℕ} :
    m ∈ monthsIn t ↔ ∃ r ∈ t, dateMonth r.1 = m := by
  unfold monthsIn
  rw [(List.perm_insertionSort _ _).mem_iff, List.mem_dedup, List.mem_map]

theorem monthsIn_nodup (t : Table) : (monthsIn t).Nodup := by
  unfold monthsIn
  exact (List.perm_insertionSort _ _).nodup_iff.mpr (List.nodup_dedup _)

theorem mem_monthGroup {t : Table} {m : ℕ} {r : ℕ × List (Option ℚ)} :
    r ∈ monthGroup t m ↔ r ∈ t ∧ dateMonth r.1 = m := by
  unfold monthGroup
  rw [List.mem_filter]
  simp only [beq_iff_eq]

theorem endpointsOfGroup_cases {g : Table} {r : ℕ × List (Option ℚ)}
    (h : r ∈ endpointsOfGroup g) : g.head? = some r ∨ g.getLast? = some r := by
  unfold endpointsOfGroup at h
  cases hh : g.head? with
  | none => rw [hh] at h; cases hl : g.getLast? <;> rw [hl] at h <;> cases h
  | some r0 =>
    cases hl : g.getLast? with
    | none => rw [hh, hl] at h; cases h
    | some rl =>
      rw [hh, hl] at h
      simp only at h
      split at h
      · rcases List.mem_cons.mp h with h1 | h1
        · exact Or.inl (by rw [h1])
        · rcases List.mem_cons.mp h1 with h2 | h2
          · exact Or.inr (by rw [h2])
          · cases h2
      · rcases List.mem_cons.mp h with h1 | h1
        · exact Or.inl (by rw [h1])
        · cases h1

theorem endpointsOfGroup_subset {g : Table} {r : ℕ × List (Option ℚ)}
    (h : r ∈ endpointsOfGroup g) : r ∈ g := by
  rcases endpointsOfGroup_cases h with h | h
  · rcases List.head?_eq_some_iff.mp h with ⟨ys, rfl⟩
    exact List.mem_cons_self _ _
  · rcases List.getLast?_eq_some_iff.mp h with ⟨ys, rfl⟩
    exact List.mem_append_right _ (List.mem_singleton_self _)

theorem endpointsOfGroup_length (g : Table) : (endpointsOfGroup g).length ≤ 2 := by
  unfold endpointsOfGroup
  cases g.head? with
  | none => cases g.getLast? <;> simp
  | some r0 =>
    cases g.getLast? with
    | none => simp
    | some rl =>
      show (if rl.1 ≠ r0.1 then [r0, rl] else [r0]).length ≤ 2
      split <;> simp

theorem endpointsOfGroup_singleton (r : ℕ × List (Option ℚ)) :
    endpointsOfGroup [r] = [r] := by
  unfold endpointsOfGroup
  simp

theorem flatMap_filter_comm {α β : Type _} (l : List α) (f : α → List β) (p : β → Bool) :
    (l.flatMap f).filter p = l.flatMap (fun a => (f a).filter p) := by
  induction l with
  | nil => rfl
  | cons a t ih => rw [List.flatMap_cons, List.flatMap_cons, List.filter_append, ih]

/-- Restricting the concatenated month-endpoint rows to one month gives
exactly that month's endpoint rows. -/
theorem monthEndpoints_filter_eq (t : Table) (m : ℕ) :
    (monthEndpoints t).filter (fun r => dateMonth r.1 == m)
      = if m ∈ monthsIn t then endpointsOfGroup (monthGroup t m) else [] := by
  unfold monthEndpoints
  rw [flatMap_filter_comm]
  have hsub : ∀ m', (endpointsOfGroup (monthGroup t m')).filter (fun r => dateMonth r.1 == m)
      = if m' = m then endpointsOfGroup (monthGroup t m') else [] := by
    intro m'
    by_cases hm' : m' = m
    · subst hm'
      rw [if_pos rfl]
      apply List.filter_eq_self.mpr
      intro r hr
      have hr2 := (mem_monthGroup.mp (endpointsOfGroup_subset hr)).2
      simp [hr2]
    · rw [if_neg hm']
      apply List.filter_eq_nil_iff.mpr
      intro r hr
      have hr2 := (mem_monthGroup.mp (endpointsOfGroup_subset hr)).2
      simp [hr2, hm']
  have key : ∀ ms : List ℕ, ms.Nodup →
      (ms.flatMap fun m' => (endpointsOfGroup (monthGroup t m')).filter (fun r => dateMonth r.1 == m))
        = if m ∈ ms then endpointsOfGroup (monthGroup t m) else [] := by
    intro ms hnd
    induction ms with
    | nil => simp
    | cons a ms ih =>
      rw [List.nodup_cons] at hnd
      rw [List.flatMap_cons, ih hnd.2, hsub a]
      by_cases ham : a = m
      · subst ham
        rw [if_pos rfl, if_pos (List.mem_cons_self _ _), if_neg hnd.1, List.append_nil]
      · rw [if_neg ham, List.nil_append]
        by_cases hm : m ∈ ms
        · rw [if_pos hm, if_pos (List.mem_cons_of_mem _ hm)]
        · rw [if_neg hm, if_neg (by
            intro hc
            rcases List.mem_cons.mp hc with h | h
            · exact ham h.symm
            · exact hm h)]
  exact key _ (monthsIn_nodup t)

theorem monthEndpoints_subset {t : Table} {r : ℕ × List (Option ℚ)}
    (h : r ∈ monthEndpoints t) : r ∈ t := by
  unfold monthEndpoints at h
  rcases List.mem_flatMap.mp h with ⟨m, -, hr⟩
  exact (mem_monthGroup.mp (endpointsOfGroup_subset hr)).1

theorem sorted_head?_le {l : Table} (hp : l.Pairwise (fun a b => a.1 ≤ b.1))
    {rh r : ℕ × List (Option ℚ)} (hh : l.head? = some rh) (hr : r ∈ l) : rh.1 ≤ r.1 := by
  rcases List.head?_eq_some_iff.mp hh with ⟨ys, rfl⟩
  rcases List.mem_cons.mp hr with h | h
  · rw [h]
  · exact (List.pairwise_cons.mp hp).1 r h

theorem sorted_le_getLast? {l : Table} (hp : l.Pairwise (fun a b => a.1 ≤ b.1))
    {rl r : ℕ × List (Option ℚ)} (hl : l.getLast? = some rl) (hr : r ∈ l) : r.1 ≤ rl.1 := by
  rcases List.getLast?_eq_some_iff.mp hl with ⟨ys, rfl⟩
  rcases List.mem_append.mp hr with h | h
  · exact (List.pairwise_append.mp hp).2.2 r h rl (List.mem_singleton_self _)
  · rw [List.mem_singleton.mp h]

theorem outerJoinAll_width {cols : List Series} {r : ℕ × List (Option ℚ)}
    (h : r ∈ outerJoinAll cols) : r.2.length = cols.length := by
  rcases mem_outerJoinAll h with ⟨-, he⟩
  rw [he]
  exact List.length_map _ _

theorem yearly_combined_def (env : Env) (nowDate nowH nowM : ℕ) (tks : List ValidTicker) :
    yearly_combined env nowDate nowH nowM tks
      = outerJoinAll ((yearly_all_series env nowDate nowH nowM tks).map (·.2)) := rfl

theorem yearly_filled_def (env : Env) (nowDate nowH nowM : ℕ) (tks : List ValidTicker) :
    yearly_filled env nowDate nowH nowM tks
      = ffillGo [] (yearly_combined env nowDate nowH nowM tks) := rfl

theorem yearly_kept_def (env : Env) (nowDate nowH nowM : ℕ) (tks : List ValidTicker) :
    yearly_kept env nowDate nowH nowM tks
      = coverage_filter tks.length (yearly_filled env nowDate nowH nowM tks) := rfl

theorem yearly_final_def (env : Env) (nowDate nowH nowM : ℕ) (tks : List ValidTicker) :
    yearly_final env nowDate nowH nowM tks
      = monthEndpoints (yearly_kept env nowDate nowH nowM tks) := rfl

theorem yearly_filled_keys (env : Env) (nowDate nowH nowM : ℕ) (tks : List ValidTicker) :
    (yearly_filled env nowDate nowH nowM tks).map Prod.fst
      = (yearly_combined env nowDate nowH nowM tks).map Prod.fst := by
  rw [yearly_filled_def]
  exact ffillGo_keys _ _

theorem yearly_filled_keys_nodup (env : Env) (nowDate nowH nowM : ℕ) (tks : List ValidTicker) :
    ((yearly_filled env nowDate nowH nowM tks).map Prod.fst).Nodup := by
  rw [yearly_filled_keys, yearly_combined_def, outerJoinAll_keys]
  exact unionKeys_nodup _

theorem yearly_filled_pairwise (env : Env) (nowDate nowH nowM : ℕ) (tks : List ValidTicker) :
    (yearly_filled env nowDate nowH nowM tks).Pairwise (fun a b => a.1 ≤ b.1) := by
  apply List.pairwise_map.mp
  rw [yearly_filled_keys, yearly_combined_def, outerJoinAll_keys]
  exact unionKeys_sorted _

theorem mem_coverage_filter {n : ℕ} {t : Table} {r : ℕ × List (Option ℚ)} :
    r ∈ coverage_filter n t ↔ r ∈ t ∧ coverage_threshold n ≤ (nonNullCount r.2 : ℚ) := by
  unfold coverage_filter
  rw [List.mem_filter, decide_eq_true_iff]

theorem yearly_kept_pairwise (env : Env) (nowDate nowH nowM : ℕ) (tks : List ValidTicker) :
    (yearly_kept env nowDate nowH nowM tks).Pairwise (fun a b => a.1 ≤ b.1) := by
  rw [yearly_kept_def]
  exact List.Pairwise.filter _ (yearly_filled_pairwise env nowDate nowH nowM tks)

/-- C4 (amended): a date row of the forward-filled yearly table survives
the coverage stage exactly when its non-null cell count is at least 30
percent of the number of securities (equivalently, a row is dropped —
and never reaches the output — exactly when strictly more than 70
percent of the securities are null on it); the boundary row with
exactly 30 percent coverage is kept. -/
theorem C4_coverage_filter (env : Env) (nowDate nowH nowM : ℕ) (tks : List ValidTicker)
    (r : ℕ × List (Option ℚ)) (hr : r ∈ yearly_filled env nowDate nowH nowM tks) :
    ((nonNullCount r.2 : ℚ) < coverage_threshold tks.length →
      r.1 ∉ (yearly_final env nowDate nowH nowM tks).map Prod.fst)
    ∧ (coverage_threshold tks.length ≤ (nonNullCount r.2 : ℚ) →
      r ∈ yearly_kept env nowDate nowH nowM tks) := by
  constructor
  · intro hlt hmem
    rcases List.mem_map.mp hmem with ⟨r', hr', hk⟩
    rw [yearly_final_def] at hr'
    have hr'kept := monthEndpoints_subset hr'
    rw [yearly_kept_def] at hr'kept
    rcases mem_coverage_filter.mp hr'kept with ⟨hr'filled, hcond⟩
    have hrr : r' = r := eq_of_mem_keyed_nodup
      (yearly_filled_keys_nodup env nowDate nowH nowM tks) hr'filled hr hk
    rw [hrr] at hcond
    exact absurd hcond (not_le.mpr hlt)
  · intro hge
    rw [yearly_kept_def]
    exact mem_coverage_filter.mpr ⟨hr, hge⟩

/-- The date-102 row of the forward-filled ten-ticker fixture. -/
def rowC4 : ℕ × List (Option ℚ) :=
  (102, [some 10, some 10, some 10, none, none, none, none, none, none, none])

/-- C4 witness: the boundary row with exactly 3 of 10 securities
non-null is kept by the coverage stage. -/
theorem C4_coverage_filter_witness :
    rowC4 ∈ yearly_kept envYearTen 612 14 0 tks10
    ∧ coverage_threshold 10 ≤ (nonNullCount rowC4.2 : ℚ) :=
  ⟨(C4_coverage_filter envYearTen 612 14 0 tks10 rowC4 (by decide)).2 (by decide),
   by decide⟩

/-- C4 counterexample: with ten securities, the date-102 row of the
forward-filled table has exactly 3 non-null cells, so exactly 70 percent
of the securities are null on it, yet date 102 appears in the output
index — contradicting the claim's parenthetical reading that a row with
70 percent or more nulls never appears. -/
theorem C4_coverage_filter_counterexample :
    tks10.length = 10
    ∧ rowC4 ∈ yearly_filled envYearTen 612 14 0 tks10
    ∧ nonNullCount rowC4.2 = 3
    ∧ (102 : ℕ) ∈ (get_yearly_trend envYearTen 612 14 0 tks10).1 := by
  refine ⟨by decide, by decide, by decide, by decide⟩

/-- C5: for every calendar month, the yearly output contains at most two
rows of that month; when the month has exactly one qualifying row after
the coverage stage, the output contains exactly one row for it (no
duplication); every output row of the month is the head or the last row
of the month's group, and the group's head and last are respectively
the chronologically first and last rows of the month. -/
theorem C5_month_endpoints (env : Env) (nowDate nowH nowM : ℕ) (tks : List ValidTicker)
    (m : ℕ) :
    ((yearly_final env nowDate nowH nowM tks).filter (fun r => dateMonth r.1 == m)).length ≤ 2
    ∧ ((monthGroup (yearly_kept env nowDate nowH nowM tks) m).length = 1 →
      ((yearly_final env nowDate nowH nowM tks).filter (fun r => dateMonth r.1 == m)).length = 1)
    ∧ (∀ r ∈ (yearly_final env nowDate nowH nowM tks).filter (fun r => dateMonth r.1 == m),
      (monthGroup (yearly_kept env nowDate nowH nowM tks) m).head? = some r
      ∨ (monthGroup (yearly_kept env nowDate nowH nowM tks) m).getLast? = some r)
    ∧ (∀ rh, (monthGroup (yearly_kept env nowDate nowH nowM tks) m).head? = some rh →
      ∀ r ∈ monthGroup (yearly_kept env nowDate nowH nowM tks) m, rh.1 ≤ r.1)
    ∧ (∀ rl, (monthGroup (yearly_kept env nowDate nowH nowM tks) m).getLast? = some rl →
      ∀ r ∈ monthGroup (yearly_kept env nowDate nowH nowM tks) m, r.1 ≤ rl.1) := by
  have hgrp_pw : (monthGroup (yearly_kept env nowDate nowH nowM tks) m).Pairwise
      (fun a b => a.1 ≤ b.1) := by
    unfold monthGroup
    exact List.Pairwise.filter _ (yearly_kept_pairwise env nowDate nowH nowM tks)
  have hfe := monthEndpoints_filter_eq (yearly_kept env nowDate nowH nowM tks) m
  refine ⟨?_, ?_, ?_, ?_, ?_⟩
  · rw [yearly_final_def, hfe]
    split
    · exact endpointsOfGroup_length _
    · simp
  · intro hone
    rcases List.length_eq_one.mp hone with ⟨r, hr⟩
    have hmem : m ∈ monthsIn (yearly_kept env nowDate nowH nowM tks) := by
      rw [mem_monthsIn]
      have : r ∈ monthGroup (yearly_kept env nowDate nowH nowM tks) m := by
        rw [hr]
        exact List.mem_singleton_self r
      rcases mem_monthGroup.mp this with ⟨h1, h2⟩
      exact ⟨r, h1, h2⟩
    rw [yearly_final_def, hfe, if_pos hmem, hr, endpointsOfGroup_singleton]
    rfl
  · intro r hr
    rw [yearly_final_def, hfe] at hr
    rcases hmm : decide (m ∈ monthsIn (yearly_kept env nowDate nowH nowM tks)) with _ | _
    · rw [if_neg (of_decide_eq_false hmm)] at hr
      cases hr
    · rw [if_pos (of_decide_eq_true hmm)] at hr
      exact endpointsOfGroup_cases hr
  · intro rh hh r hr
    exact sorted_head?_le hgrp_pw hh hr
  · intro rl hl r hr
    exact sorted_le_getLast? hgrp_pw hl hr

/-- C5 witness: in the two-month fixture, January contributes its first
(102) and last (105) kept rows, and February — a single-row month —
contributes exactly one row, not duplicated. -/
theorem C5_month_endpoints_witness :
    ((yearly_final envTwoMonths 612 14 0 tksAB).filter
        (fun r => dateMonth r.1 == 2)).length = 1
    ∧ ((yearly_final envTwoMonths 612 14 0 tksAB).filter
        (fun r => dateMonth r.1 == 1)).length ≤ 2
    ∧ (yearly_final envTwoMonths 612 14 0 tksAB).map Prod.fst = [102, 105, 203] :=
  ⟨(C5_month_endpoints envTwoMonths 612 14 0 tksAB 2).2.1 (by decide),
   (C5_month_endpoints envTwoMonths 612 14 0 tksAB 1).1,
   by decide⟩

/-- C6: forward-fill of the combined yearly table, cell by cell: a cell
holding a close keeps it; a NaN cell receives the security's most
recent prior available close from the rows above it, and remains NaN
when the security has no earlier value; the row keys are unchanged. -/
theorem C6_forward_fill (env : Env) (nowDate nowH nowM : ℕ) (tks : List ValidTicker)
    (i j : ℕ) (hi : i < (yearly_combined env nowDate nowH nowM tks).length)
    (hj : j < (yearly_all_series env nowDate nowH nowM tks).length) :
    (cellAt (yearly_filled env nowDate nowH nowM tks) i j
      = match cellAt (yearly_combined env nowDate nowH nowM tks) i j with
        | some v => some v
        | none => lastSome (tableCol ((yearly_combined env nowDate nowH nowM tks).take i) j))
    ∧ (yearly_filled env nowDate nowH nowM tks).map Prod.fst
        = (yearly_combined env nowDate nowH nowM tks).map Prod.fst := by
  refine ⟨?_, yearly_filled_keys env nowDate nowH nowM tks⟩
  have hj' : j < ((yearly_all_series env nowDate nowH nowM tks).map (·.2)).length := by
    rw [List.length_map]
    exact hj
  have h := ffillGo_cellAt (yearly_combined env nowDate nowH nowM tks) _
    (fun r hr => outerJoinAll_width hr) i j hi hj' []
  rw [yearly_filled_def, h]
  cases hc : cellAt (yearly_combined env nowDate nowH nowM tks) i j with
  | some v => rfl
  | none =>
    cases hls : lastSome (tableCol ((yearly_combined env nowDate nowH nowM tks).take i) j) with
    | some v => rfl
    | none => rfl

/-- C6 witness: in the ten-ticker fixture, security 0 has no bar on date
105; the combined cell is NaN and forward-fill assigns it the prior
close 10. -/
theorem C6_forward_fill_witness :
    cellAt (yearly_combined envYearTen 612 14 0 tks10) 1 0 = none
    ∧ cellAt (yearly_filled envYearTen 612 14 0 tks10) 1 0 = some 10 := by
  constructor
  · decide
  · have h := (C6_forward_fill envYearTen 612 14 0 tks10 1 0 (by decide) (by decide)).1
    rw [h]
    decide

/-- C1: session gate of the single-date lookup.  For any valid clock
time: a target date strictly after today yields the empty result; the
target equal to today with the clock before 13:30 yields the empty
result; any other target (a past date, or today at or after 13:30)
proceeds to the per-security fetch loop. -/
theorem C1_session_gate (env : Env) (tws : TwStock) (now : NowTW)
    (stock_list : List String) (target : ℕ)
    (hh : now.hour < 24) (hm : now.minute < 60) :
    (now.date < target → get_history_by_date env tws now stock_list target = [])
    ∧ (target = now.date → 60 * now.hour + now.minute < 810 →
      get_history_by_date env tws now stock_list target = [])
    ∧ (target ≤ now.date → (target = now.date → 810 ≤ 60 * now.hour + now.minute) →
      get_history_by_date env tws now stock_list target
        = history_rows env tws stock_list target) := by
  have hbc := before_close_iff now.hour hh now.minute hm
  refine ⟨?_, ?_, ?_⟩
  · intro hlt
    have hne : (target == now.date) = false :=
      beq_eq_false_iff_ne.mpr (Ne.symm (ne_of_lt hlt))
    unfold get_history_by_date
    rw [hne, Bool.false_and, if_neg Bool.false_ne_true, if_pos hlt]
  · intro heq hlt
    have hbeq : (target == now.date) = true := beq_iff_eq.mpr heq
    have hbc' : before_close now.hour now.minute = true := hbc.mpr hlt
    unfold get_history_by_date
    rw [hbeq, hbc']
    simp
  · intro hle himp
    unfold get_history_by_date
    have hcond : (target == now.date && before_close now.hour now.minute) = false := by
      rcases Nat.lt_or_ge target now.date with hlt | hge
      · rw [beq_eq_false_iff_ne.mpr (ne_of_lt hlt), Bool.false_and]
      · have heq : target = now.date := Nat.le_antisymm hle hge
        have hbf : before_close now.hour now.minute = false := by
          rw [Bool.eq_false_iff]
          intro hb
          exact absurd (hbc.mp hb) (not_lt.mpr (himp heq))
        rw [hbf, Bool.and_false]
    rw [hcond, if_neg Bool.false_ne_true, if_neg (not_lt.mpr hle)]

/-- C1 witness: on the fixture, today-at-13:30 proceeds to the fetch
loop (and actually returns a row), while today-at-13:29 and a future
date return the empty result. -/
theorem C1_session_gate_witness :
    get_history_by_date envDayTest none ⟨100, 13, 30⟩ ["2330"] 100
      = history_rows envDayTest none ["2330"] 100
    ∧ get_history_by_date envDayTest none ⟨100, 13, 29⟩ ["2330"] 100 = []
    ∧ get_history_by_date envDayTest none ⟨100, 13, 30⟩ ["2330"] 101 = []
    ∧ history_rows envDayTest none ["2330"] 100 ≠ [] :=
  ⟨(C1_session_gate envDayTest none ⟨100, 13, 30⟩ ["2330"] 100 (by decide) (by decide)).2.2
      (by decide) (fun _ => by decide),
   (C1_session_gate envDayTest none ⟨100, 13, 29⟩ ["2330"] 100 (by decide) (by decide)).2.1
      rfl (by decide),
   (C1_session_gate envDayTest none ⟨100, 13, 30⟩ ["2330"] 101 (by decide) (by decide)).1
      (by decide),
   by decide⟩

theorem process_code_error {env : Env} {tws : TwStock} {c e : String}
    (hne : pyStrip c ≠ "") (hc : env.hist5d (pyStrip c ++ ".TW") = .error e) :
    process_code env tws c
      = ([], [], [Msg.error ("抓取 " ++ pyStrip c ++ " 錯誤: " ++ e)]) := by
  simp only [process_code]
  rw [if_neg hne, hc]

theorem weekly_msgs_nil (env : Env) (tk : ValidTicker) : weekly_msgs env tk = [] := by
  unfold weekly_msgs
  cases env.histWeek tk.symbol <;> rfl

/-- C8 (amended): a per-security exception is caught and never aborts
the batch.  In `get_stock_data` it is reported as one per-item error
message and the rows and valid tickers are those of the batch without
the failing code; in `get_weekly_trend` the exception is swallowed
(`except Exception: pass`) — the output is that of the batch without
the failing ticker, with no message recorded. -/
theorem C8_failure_isolation (env : Env) (tws : TwStock) (l₁ l₂ : List String) (c e : String)
    (hne : pyStrip c ≠ "") (hc : env.hist5d (pyStrip c ++ ".TW") = .error e) :
    ((get_stock_data env tws (l₁ ++ c :: l₂)).1 = (get_stock_data env tws (l₁ ++ l₂)).1
    ∧ (get_stock_data env tws (l₁ ++ c :: l₂)).2.1 = (get_stock_data env tws (l₁ ++ l₂)).2.1
    ∧ (get_stock_data env tws (l₁ ++ c :: l₂)).2.2
        = (get_stock_data env tws l₁).2.2
          ++ Msg.error ("抓取 " ++ pyStrip c ++ " 錯誤: " ++ e)
            :: (get_stock_data env tws l₂).2.2)
    ∧ (∀ (tks₁ tks₂ : List ValidTicker) (tk : ValidTicker) (e' : String),
        env.histWeek tk.symbol = .error e' →
        get_weekly_trend env (tks₁ ++ tk :: tks₂) = get_weekly_trend env (tks₁ ++ tks₂)) := by
  have hpc := @process_code_error env tws c e hne hc
  constructor
  · refine ⟨?_, ?_, ?_⟩ <;>
      simp [get_stock_data, List.flatMap_append, List.flatMap_cons, hpc]
  · intro tks₁ tks₂ tk e' hw
    have hws : weekly_series env tk = none := by
      unfold weekly_series
      rw [hw]
    simp only [get_weekly_trend, weekly_cols]
    rw [List.filterMap_append, List.filterMap_append, List.filterMap_cons, hws,
      List.flatMap_append, List.flatMap_append, List.flatMap_cons, weekly_msgs_nil,
      List.nil_append]

/-- C8 witness: with the middle code failing, the rows are those of the
two-code batch and exactly one per-item error message is interleaved;
the weekly table likewise drops only the failing ticker. -/
theorem C8_failure_isolation_witness :
    (get_stock_data envMixed none ["2330", "9998", "1101"]).1
      = (get_stock_data envMixed none ["2330", "1101"]).1
    ∧ (get_stock_data envMixed none ["2330", "9998", "1101"]).2.2
      = (get_stock_data envMixed none ["2330"]).2.2
        ++ Msg.error ("抓取 " ++ pyStrip "9998" ++ " 錯誤: " ++ "boom")
          :: (get_stock_data envMixed none ["1101"]).2.2
    ∧ get_weekly_trend envMixed [tkA, tkB] = get_weekly_trend envMixed [tkB] := by
  have h := C8_failure_isolation envMixed none ["2330"] ["1101"] "9998" "boom"
    (by decide) rfl
  exact ⟨h.1.1, h.1.2.2, h.2 [] [tkB] tkA "down" rfl⟩

/-- C8 counterexample: a weekly-loop fetch failure is swallowed with no
per-item message — the message list is empty although a security in the
batch failed (the batch itself continues, keeping the other column). -/
theorem C8_failure_isolation_counterexample :
    envMixed.histWeek tkA.symbol = Except.error "down"
    ∧ (get_weekly_trend envMixed [tkA, tkB]).2.2 = ([] : List Msg)
    ∧ (get_weekly_trend envMixed [tkA, tkB]).1 = ["2222 B"] :=
  ⟨rfl, rfl, rfl⟩

def lnTest : Option String := some ("Test Corp")

/-- C9 (amended): the display name is the manual table's entry when the
code is present there; otherwise the secondary module's name when the
module is loaded and knows the code; otherwise the fetch API's longName
field when present; otherwise the raw code. -/
theorem C9_name_resolution (tws : TwStock) (ln : Option String) (code : String) :
    (∀ n, MANUAL_STOCK_NAMES.lookup code = some n → resolve_name tws ln code = n)
    ∧ (MANUAL_STOCK_NAMES.lookup code = none → ∀ f n, tws = some f → f code = some n →
      resolve_name tws ln code = n)
    ∧ (MANUAL_STOCK_NAMES.lookup code = none → (∀ f, tws = some f → f code = none) →
      resolve_name tws ln code = ln.getD code) := by
  refine ⟨?_, ?_, ?_⟩
  · intro n hn
    simp only [resolve_name]
    rw [hn]
  · intro hm f n hf hn
    simp only [resolve_name, hm, hf, hn]
  · intro hm hf
    cases htw : tws with
    | none =>
      simp only [resolve_name, hm, htw]
      cases ln <;> rfl
    | some f =>
      simp only [resolve_name, hm, htw, hf f htw]
      cases ln <;> rfl

/-- C9 witness: the manual table wins for 2330; for a code unknown to
the table with the module absent, the longName is displayed. -/
theorem C9_name_resolution_witness :
    resolve_name none lnTest "2330" = "台積電"
    ∧ resolve_name none lnTest "9999" = "Test Corp" :=
  ⟨(C9_name_resolution none lnTest "2330").1 ("台積電") rfl,
   ((C9_name_resolution none lnTest "9999").2.2 rfl (fun _ hf => nomatch hf)).trans rfl⟩

/-- C9 counterexample: code 9999 misses both the manual table and the
module, yet the displayed name is the fetch API's longName, not the raw
code echoed back as the claim states. -/
theorem C9_name_resolution_counterexample :
    MANUAL_STOCK_NAMES.lookup "9999" = none
    ∧ resolve_name none lnTest "9999" = "Test Corp"
    ∧ resolve_name none lnTest "9999" ≠ "9999" :=
  ⟨rfl, rfl, by decide⟩

/-- C10: when the 5-day history holds exactly one bar, that bar doubles
as its own previous close, so the reported 漲跌 and 漲跌幅(%) are both
exactly 0 and the row is still produced.  (The positivity hypothesis is
the data-model invariant under which the exact-rational model coincides
with the float execution.) -/
theorem C10_single_bar (env : Env) (tws : TwStock) (c : String) (d : ℕ) (b : Bar)
    (hne : pyStrip c ≠ "") (hb : env.hist5d (pyStrip c ++ ".TW") = .ok [(d, b)])
    (_hpos : 0 < b.Close) :
    ∃ r : StockRow, (get_stock_data env tws [c]).1 = [r]
      ∧ r.change = 0 ∧ r.pctChange = 0 ∧ r.close = round2 b.Close ∧ r.volume = b.Volume := by
  have hchange : round2 (b.Close - b.Close) = 0 := by simp [round2]
  have hpct : round2 ((b.Close - b.Close) / b.Close * 100) = 0 := by simp [round2]
  have key : process_code env tws c
      = ([{ code := pyStrip c,
            name := resolve_name tws (env.longName (pyStrip c ++ ".TW")) (pyStrip c),
            date := d, close := round2 b.Close,
            change := round2 (b.Close - b.Close),
            pctChange := round2 ((b.Close - b.Close) / b.Close * 100),
            volume := b.Volume }],
          [{ code := pyStrip c, symbol := pyStrip c ++ ".TW",
             name := resolve_name tws (env.longName (pyStrip c ++ ".TW")) (pyStrip c) }],
          []) := by
    simp only [process_code]
    rw [if_neg hne, hb]
    rfl
  refine ⟨{ code := pyStrip c,
            name := resolve_name tws (env.longName (pyStrip c ++ ".TW")) (pyStrip c),
            date := d, close := round2 b.Close,
            change := round2 (b.Close - b.Close),
            pctChange := round2 ((b.Close - b.Close) / b.Close * 100),
            volume := b.Volume }, ?_, hchange, hpct, rfl, rfl⟩
  simp only [get_stock_data, List.flatMap_cons, List.flatMap_nil, List.append_nil, key]

/-- C10 witness: a concrete single-bar security reports zero change and
zero percentage change. -/
theorem C10_single_bar_witness :
    ∃ r : StockRow, (get_stock_data envSingleBar none ["2330"]).1 = [r]
      ∧ r.change = 0 ∧ r.pctChange = 0 :=
  match C10_single_bar envSingleBar none "2330" 1209 (mkBar 100 105 5000)
      (by decide) rfl (by decide) with
  | ⟨r, h1, h2, h3, _, _⟩ => ⟨r, h1, h2, h3⟩

def fetchMonthTest (s : String) : Except String Hist :=
  if s = "1111.TW" then .ok [(101, mkBar 10 11 100), (102, mkBar 11 12 100)] else .ok []

def envMonthTest : Env := { baseEnv with histMonth := fetchMonthTest }

theorem weekly_series_of_ok {env : Env} {tk : ValidTicker} {hist : Hist}
    (h : env.histWeek tk.symbol = .ok hist) (hne : hist ≠ []) :
    weekly_series env tk
      = some (tk.code ++ " " ++ tk.name, cumReturn (weekly_points hist)) := by
  have hie : hist.isEmpty = false := by simpa using hne
  simp [weekly_series, h, hie]

theorem weekly_cols_mem {env : Env} {tks : List ValidTicker} {tk : ValidTicker} {hist : Hist}
    (htk : tk ∈ tks) (h : env.histWeek tk.symbol = .ok hist) (hne : hist ≠ []) :
    (tk.code ++ " " ++ tk.name, cumReturn (weekly_points hist)) ∈ weekly_cols env tks := by
  unfold weekly_cols
  exact List.mem_filterMap.mpr ⟨tk, htk, weekly_series_of_ok h hne⟩

theorem weekly_points_length (hist : Hist) :
    (weekly_points hist).length = 2 * hist.length := by
  induction hist with
  | nil => rfl
  | cons a t ih =>
    unfold weekly_points at ih ⊢
    rw [List.flatMap_cons, List.length_append, ih, List.length_cons]
    simp
    omega

theorem weekly_points_mem {hist : Hist} {d : ℕ} {b : Bar} (h : (d, b) ∈ hist) :
    (d * 1440 + 540, b.Open) ∈ weekly_points hist
    ∧ (d * 1440 + 810, b.Close) ∈ weekly_points hist := by
  constructor <;>
  · unfold weekly_points
    refine List.mem_flatMap.mpr ⟨(d, b), h, ?_⟩
    simp

theorem cumReturn_keys (pts : Series) : colKeys (cumReturn pts) = colKeys pts := by
  cases pts with
  | nil => rfl
  | cons p rest =>
    cases p with
    | mk t0 p0 =>
      show colKeys (((t0, p0) :: rest).map (fun tp => (tp.1, (tp.2 - p0) / p0 * 100))) = _
      rw [colKeys_def, colKeys_def, List.map_map]
      rfl

theorem cumReturn_head_zero {t0 : ℕ} {p0 : ℚ} {rest : Series} :
    (cumReturn ((t0, p0) :: rest)).head? = some (t0, 0) := by
  show some (t0, (p0 - p0) / p0 * 100) = some (t0, 0)
  rw [sub_self, zero_div, zero_mul]

theorem cumReturn_mem {pts : Series} {t0 : ℕ} {sp : ℚ} (hh : pts.head? = some (t0, sp))
    {t : ℕ} {p : ℚ} (h : (t, p) ∈ pts) :
    (t, (p - sp) / sp * 100) ∈ cumReturn pts := by
  rcases List.head?_eq_some_iff.mp hh with ⟨ys, rfl⟩
  show (t, (p - sp) / sp * 100)
    ∈ ((t0, sp) :: ys).map (fun tp => (tp.1, (tp.2 - sp) / sp * 100))
  exact List.mem_map_of_mem _ h

theorem get_weekly_trend_table (env : Env) (tks : List ValidTicker) :
    (get_weekly_trend env tks).2.1
      = outerJoinAll ((weekly_cols env tks).map (·.2)) := rfl

theorem firstSome_spec {col : List (Option ℚ)} {v : ℚ} (h : firstSome col = some v) :
    ∃ i, i < col.length ∧ col.getD i none = some v
      ∧ ∀ i' < i, col.getD i' none = none := by
  induction col with
  | nil => cases h
  | cons c cs ih =>
    cases c with
    | some w =>
      have hwv : w = v := by
        have : some w = some v := h
        injection this
      refine ⟨0, by simp, by rw [List.getD_cons_zero, hwv], ?_⟩
      intro i' hi'
      omega
    | none =>
      have h' : firstSome cs = some v := h
      rcases ih h' with ⟨i, hi, hv, hprior⟩
      refine ⟨i + 1, by simpa using hi, by rw [List.getD_cons_succ]; exact hv, ?_⟩
      intro i' hi'
      cases i' with
      | zero => rw [List.getD_cons_zero]
      | succ i'' =>
        rw [List.getD_cons_succ]
        exact hprior i'' (by omega)

theorem getD_map_option (g : ℚ → ℚ) (l : List (Option ℚ)) (i : ℕ) :
    (l.map (Option.map g)).getD i none = Option.map g (l.getD i none) := by
  induction l generalizing i with
  | nil => simp
  | cons c cs ih =>
    cases i with
    | zero => rw [List.map_cons, List.getD_cons_zero, List.getD_cons_zero]
    | succ i => rw [List.map_cons, List.getD_cons_succ, List.getD_cons_succ, ih]

theorem get_yearly_trend_def (env : Env) (nowDate nowH nowM : ℕ) (tks : List ValidTicker) :
    get_yearly_trend env nowDate nowH nowM tks
      = if (yearly_all_series env nowDate nowH nowM tks).isEmpty then ([], [])
        else ((yearly_final env nowDate nowH nowM tks).map (·.1),
          (List.range (yearly_all_series env nowDate nowH nowM tks).length).filterMap
            (yearly_trend_col ((yearly_all_series env nowDate nowH nowM tks).map (·.1))
              (yearly_final env nowDate nowH nowM tks))) := rfl

/-- C7: each daily bar of a security yields exactly two observation
points — 09:00 tagged with the open price and 13:30 tagged with the
close price — a surviving security's column is its cumulative-return
series over exactly those points, and the merge is an outer union of
timestamps: the table index is the union of all series' keys, a key
carried by column j appears with column j's value in that row, and a
key absent from column j's series gives a NaN cell for j. -/
theorem C7_weekly_synthesis (env : Env) (tks : List ValidTicker) :
    (∀ hist : Hist, (weekly_points hist).length = 2 * hist.length)
    ∧ (∀ (hist : Hist) (d : ℕ) (b : Bar), (d, b) ∈ hist →
      (d * 1440 + 540, b.Open) ∈ weekly_points hist
      ∧ (d * 1440 + 810, b.Close) ∈ weekly_points hist)
    ∧ (∀ (tk : ValidTicker) (hist : Hist), tk ∈ tks →
      env.histWeek tk.symbol = .ok hist → hist ≠ [] →
      (tk.code ++ " " ++ tk.name, cumReturn (weekly_points hist)) ∈ weekly_cols env tks)
    ∧ ((get_weekly_trend env tks).2.1.map Prod.fst
      = unionKeys ((weekly_cols env tks).map (·.2)))
    ∧ (∀ (j k : ℕ) (v : ℚ), j < (weekly_cols env tks).length →
      (colKeys (((weekly_cols env tks).map (·.2)).getD j [])).Nodup →
      (k, v) ∈ ((weekly_cols env tks).map (·.2)).getD j [] →
      ∃ cells, (k, cells) ∈ (get_weekly_trend env tks).2.1 ∧ cells.getD j none = some v)
    ∧ (∀ j k : ℕ, j < (weekly_cols env tks).length →
      k ∈ unionKeys ((weekly_cols env tks).map (·.2)) →
      k ∉ colKeys (((weekly_cols env tks).map (·.2)).getD j []) →
      ∃ cells, (k, cells) ∈ (get_weekly_trend env tks).2.1 ∧ cells.getD j none = none) := by
  refine ⟨weekly_points_length, fun hist d b h => weekly_points_mem h,
    fun tk hist htk h hne => weekly_cols_mem htk h hne, ?_, ?_, ?_⟩
  · rw [get_weekly_trend_table, outerJoinAll_keys]
  · intro j k v hj hnd hmem
    rw [get_weekly_trend_table]
    exact outerJoinAll_cell_some (by rw [List.length_map]; exact hj) hnd hmem
  · intro j k hj hk hnot
    rw [get_weekly_trend_table]
    exact outerJoinAll_cell_none (by rw [List.length_map]; exact hj) hk hnot

/-- C7 witness: in the two-ticker fixture, the first ticker's Monday
09:00 point lands in the merged table with value 0, the timestamp that
only the second ticker trades yields a NaN cell for the first ticker's
column, and the first ticker's column is present. -/
theorem C7_weekly_synthesis_witness :
    (∃ cells, ((145980 : ℕ), cells) ∈ (get_weekly_trend envWeekTest [tkA, tkB]).2.1
      ∧ cells.getD 0 none = some 0)
    ∧ (∃ cells, ((147420 : ℕ), cells) ∈ (get_weekly_trend envWeekTest [tkA, tkB]).2.1
      ∧ cells.getD 0 none = none)
    ∧ ("1111 A", cumReturn (weekly_points [(101, mkBar 10 11 100), (103, mkBar 11 12 100)]))
      ∈ weekly_cols envWeekTest [tkA, tkB] :=
  ⟨(C7_weekly_synthesis envWeekTest [tkA, tkB]).2.2.2.2.1 0 145980 0
      (by decide) (by decide) (by decide),
   (C7_weekly_synthesis envWeekTest [tkA, tkB]).2.2.2.2.2 0 147420
      (by decide) (by decide) (by decide),
   (C7_weekly_synthesis envWeekTest [tkA, tkB]).2.2.1 tkA
      [(101, mkBar 10 11 100), (103, mkBar 11 12 100)]
      (by decide) rfl (by decide)⟩

/-- C2: the computed return at a security's own baseline position is
exactly 0: in the weekly table, a column built from a non-empty history
carries value 0 at the security's first observation timestamp (the
positivity and duplicate-free-date hypotheses are the data-model
invariants under which the rational model matches the float execution);
in the yearly table, every surviving column's first valid entry — the
entry at its own baseline row — is exactly 0, with every earlier entry
null. -/
theorem C2_baseline_zero (env : Env) (nowDate nowH nowM : ℕ) (tks : List ValidTicker) :
    (∀ (j d : ℕ) (b : Bar) (rest : Hist),
      j < (weekly_cols env tks).length →
      ((weekly_cols env tks).map (·.2)).getD j []
        = cumReturn (weekly_points ((d, b) :: rest)) →
      (colKeys (weekly_points ((d, b) :: rest))).Nodup →
      0 < b.Open →
      (cumReturn (weekly_points ((d, b) :: rest))).head? = some (d * 1440 + 540, 0)
      ∧ ∃ cells, (d * 1440 + 540, cells) ∈ (get_weekly_trend env tks).2.1
        ∧ cells.getD j none = some 0)
    ∧ (∀ lbl vals, (lbl, vals) ∈ (get_yearly_trend env nowDate nowH nowM tks).2 →
      ∃ i, i < vals.length ∧ vals.getD i none = some 0
        ∧ ∀ i' < i, vals.getD i' none = none) := by
  constructor
  · intro j d b rest hj hcol hnd _hpos
    have hpts : weekly_points ((d, b) :: rest)
        = (d * 1440 + 540, b.Open) :: (d * 1440 + 810, b.Close) :: weekly_points rest := rfl
    have hhead : (cumReturn (weekly_points ((d, b) :: rest))).head?
        = some (d * 1440 + 540, 0) := by
      rw [hpts]
      exact cumReturn_head_zero
    refine ⟨hhead, ?_⟩
    have hmem0 : (d * 1440 + 540, (0 : ℚ))
        ∈ ((weekly_cols env tks).map (·.2)).getD j [] := by
      rw [hcol]
      rcases List.head?_eq_some_iff.mp hhead with ⟨ys, hys⟩
      rw [hys]
      exact List.mem_cons_self _ _
    rw [get_weekly_trend_table]
    refine outerJoinAll_cell_some (by rw [List.length_map]; exact hj) ?_ hmem0
    rw [hcol, cumReturn_keys]
    exact hnd
  · intro lbl vals hmem
    rw [get_yearly_trend_def] at hmem
    split at hmem
    · cases hmem
    · rcases List.mem_filterMap.mp hmem with ⟨j, hjr, hcol⟩
      simp only [yearly_trend_col] at hcol
      cases hfs : firstSome (tableCol (yearly_final env nowDate nowH nowM tks) j) with
      | none => rw [hfs] at hcol; cases hcol
      | some sp =>
        rw [hfs] at hcol
        have hcol' : (if 0 < sp then
            some (((yearly_all_series env nowDate nowH nowM tks).map (·.1)).getD j default,
              (tableCol (yearly_final env nowDate nowH nowM tks) j).map
                (Option.map (fun v => (v - sp) / sp * 100)))
            else none) = some (lbl, vals) := hcol
        by_cases hsp : (0 : ℚ) < sp
        · rw [if_pos hsp, Option.some.injEq, Prod.mk.injEq] at hcol'
          rcases firstSome_spec hfs with ⟨i, hi, hv, hprior⟩
          refine ⟨i, ?_, ?_, ?_⟩
          · rw [← hcol'.2, List.length_map]
            exact hi
          · rw [← hcol'.2, getD_map_option, hv]
            show some ((sp - sp) / sp * 100) = some 0
            rw [sub_self, zero_div, zero_mul]
          · intro i' hi'
            rw [← hcol'.2, getD_map_option, hprior i' hi']
            rfl
        · rw [if_neg hsp] at hcol'
          cases hcol'

/-- C2 witness: the first ticker's weekly column is 0 at its Monday
09:00 baseline point both in the series and in the merged table, and a
concrete yearly column has first valid entry 0. -/
theorem C2_baseline_zero_witness :
    ((cumReturn (weekly_points ((101, mkBar 10 11 100) :: [(103, mkBar 11 12 100)]))).head?
      = some (101 * 1440 + 540, 0)
    ∧ ∃ cells, ((101 * 1440 + 540 : ℕ), cells) ∈ (get_weekly_trend envWeekTest [tkA, tkB]).2.1
      ∧ cells.getD 0 none = some 0)
    ∧ ∃ i, i < [some (0 : ℚ), some 0].length
      ∧ [some (0 : ℚ), some 0].getD i none = some 0
      ∧ ∀ i' < i, [some (0 : ℚ), some 0].getD i' none = none :=
  ⟨(C2_baseline_zero envWeekTest 0 0 0 [tkA, tkB]).1 0 101 (mkBar 10 11 100)
      [(103, mkBar 11 12 100)] (by decide) (by decide) (by decide) (by decide),
   (C2_baseline_zero envYearTen 612 14 0 tks10).2 ("0 S0") [some 0, some 0] (by decide)⟩

/-- C3 (amended): the monthly and yearly aligners never include a
security column whose baseline close is not positive — every monthly
column comes from a history whose first close is positive and every
yearly column has a positive first valid close among the kept rows.
The weekly aligner carries no such guard: a security with a zero
baseline is still included (see the counterexample); no horizon raises
a division error since the cell arithmetic is total. -/
theorem C3_positive_baseline (env : Env) (nowDate nowH nowM : ℕ) (tks : List ValidTicker) :
    (∀ lbl s, (lbl, s) ∈ monthly_cols env tks →
      ∃ tk first rest, tk ∈ tks
        ∧ env.histMonth tk.symbol = Except.ok (first :: rest)
        ∧ 0 < first.2.Close)
    ∧ (∀ lbl vals, (lbl, vals) ∈ (get_yearly_trend env nowDate nowH nowM tks).2 →
      ∃ sp : ℚ, 0 < sp ∧ ∃ j, j < (yearly_all_series env nowDate nowH nowM tks).length
        ∧ firstSome (tableCol (yearly_final env nowDate nowH nowM tks) j) = some sp) := by
  constructor
  · intro lbl s hmem
    rcases List.mem_filterMap.mp hmem with ⟨tk, htk, hser⟩
    unfold monthly_series at hser
    cases hfetch : env.histMonth tk.symbol with
    | error e => rw [hfetch] at hser; cases hser
    | ok hist =>
      rw [hfetch] at hser
      cases hist with
      | nil => cases hser
      | cons first rest =>
        by_cases hsp : (0 : ℚ) < first.2.Close
        · exact ⟨tk, first, rest, htk, hfetch, hsp⟩
        · have hser' : (if (0 : ℚ) < first.2.Close then
              some (tk.code ++ " " ++ tk.name, (first :: rest).map
                (fun db => (db.1, (db.2.Close - first.2.Close) / first.2.Close * 100)))
              else none) = some (lbl, s) := hser
          rw [if_neg hsp] at hser'
          cases hser'
  · intro lbl vals hmem
    rw [get_yearly_trend_def] at hmem
    split at hmem
    · cases hmem
    · rcases List.mem_filterMap.mp hmem with ⟨j, hjr, hcol⟩
      simp only [yearly_trend_col] at hcol
      cases hfs : firstSome (tableCol (yearly_final env nowDate nowH nowM tks) j) with
      | none => rw [hfs] at hcol; cases hcol
      | some sp =>
        rw [hfs] at hcol
        have hcol' : (if 0 < sp then
            some (((yearly_all_series env nowDate nowH nowM tks).map (·.1)).getD j default,
              (tableCol (yearly_final env nowDate nowH nowM tks) j).map
                (Option.map (fun v => (v - sp) / sp * 100)))
            else none) = some (lbl, vals) := hcol
        by_cases hsp : (0 : ℚ) < sp
        · exact ⟨sp, hsp, j, List.mem_range.mp hjr, hfs⟩
        · rw [if_neg hsp] at hcol'
          cases hcol'

/-- C3 witness: a concrete monthly column reaches back to a history with
positive first close, and a concrete yearly column has a positive first
valid close. -/
theorem C3_positive_baseline_witness :
    (∃ tk first rest, tk ∈ [tkA]
      ∧ envMonthTest.histMonth tk.symbol = Except.ok (first :: rest)
      ∧ 0 < first.2.Close)
    ∧ ∃ sp : ℚ, 0 < sp ∧ ∃ j, j < (yearly_all_series envYearTen 612 14 0 tks10).length
      ∧ firstSome (tableCol (yearly_final envYearTen 612 14 0 tks10) j) = some sp :=
  ⟨(C3_positive_baseline envMonthTest 0 0 0 [tkA]).1 ("1111 A")
      [(101, 0), (102, 100 / 11)] (by decide),
   (C3_positive_baseline envYearTen 612 14 0 tks10).2 ("0 S0") [some 0, some 0] (by decide)⟩

/-- C3 counterexample: the weekly aligner includes the column of a
security whose baseline — the open price of its first observation — is
zero: the claim's omission guarantee fails for the weekly horizon. -/
theorem C3_positive_baseline_counterexample :
    ((weekly_points [(101, mkBar 0 5 100)]).headD (0, 0)).2 = 0
    ∧ (get_weekly_trend envWeekZero [tkZ]).1 = ["7777 X"]
    ∧ (get_weekly_trend envWeekZero [tkZ]).2.1.map Prod.fst
      = [101 * 1440 + 540, 101 * 1440 + 810] :=
  ⟨rfl, rfl, by decide⟩
